import Mathlib

/-!
Verification of the letter-registration backend (Django REST application).

The model embeds the `Letter` table (`api/models.py`), the letter endpoints
(`api/views.py`: create with number allocation, cancel, restore, list) and the
user-facing auth endpoints (signup, password-reset request) as pure functions
over explicit store states.

Database-level facts embedded from `api/models.py`:
  * `number = models.PositiveIntegerField(unique=True)` — the database rejects
    an insert whose `number` equals any existing row's `number` (active or
    cancelled); this is modelled by the `integrityError` branch of `create`.
  * `Meta.ordering = ['-number']` — the list endpoint returns rows sorted by
    `number` descending.
  * primary keys are auto-incremented and unique.
-/

namespace LetterBackend

/-- One row of the `Letter` table (`api/models.py`).  `registered_at` is the
creation timestamp (`auto_now_add`), modelled as a natural number. -/
structure Letter where
  id : Nat
  number : Nat
  subject : String
  addressee : String
  registered_by_username : String
  registered_at : Nat
  is_cancelled : Bool
deriving DecidableEq

/-- The database state: the rows of the `Letter` table in insertion order,
together with the next auto-increment primary key. -/
structure Store where
  letters : List Letter
  nextId : Nat
deriving DecidableEq

/-- The empty database (Django primary keys start at 1). -/
def emptyStore : Store := ⟨[], 1⟩

/-- `Letter.objects.filter(is_cancelled=False)` in `perform_create`. -/
def activeLetters (s : Store) : List Letter :=
  s.letters.filter (fun l => !l.is_cancelled)

/-- `active_numbers`: the numbers currently held by active letters. -/
def activeNumbers (s : Store) : List Nat :=
  (activeLetters s).map Letter.number

/-- The numbers of all letters, active or cancelled. -/
def allNumbers (s : Store) : List Nat :=
  s.letters.map Letter.number

/-- Numbers of cancelled letters whose number is not held by any active
letter: `filter(is_cancelled=True).exclude(number__in=active_numbers)`. -/
def freeCancelledNumbers (s : Store) : List Nat :=
  (s.letters.filter
    (fun l => l.is_cancelled && !((activeNumbers s).contains l.number))).map Letter.number

/-- The number-allocation algorithm of
`LetterListCreateAPIView.perform_create` (`api/views.py`): reuse the smallest
free cancelled number (`order_by('number').first()`); otherwise
`max(active numbers) + 1` when an active letter exists, else 301. -/
def allocNumber (s : Store) : Nat :=
  match (freeCancelledNumbers s).min? with
  | some n => n
  | none =>
    match (activeNumbers s).max? with
    | some m => m + 1
    | none => 301

/-- Outcome of `perform_create`: success carries the new state and the
assigned number; `valueError` is the explicit `raise ValueError` when the
computed number is already held by an active letter; `integrityError` is the
database rejecting the insert because of `unique=True` on `number`.  Either
exception aborts the surrounding `transaction.atomic`, leaving the state
unchanged. -/
inductive CreateResult where
  | ok (s : Store) (assigned : Nat)
  | valueError
  | integrityError
deriving DecidableEq

/-- The row inserted by `serializer.save(...)` for a create call. -/
def newLetter (s : Store) (su ad un : String) (t : Nat) (n : Nat) : Letter :=
  ⟨s.nextId, n, su, ad, un, t, false⟩

/-- `LetterListCreateAPIView.perform_create`: allocate a number, re-check it
against active letters (`raise ValueError` on clash), then insert; the insert
itself fails with an integrity error when any row already holds that number
(`unique=True` on `Letter.number`). -/
def create (s : Store) (su ad un : String) (t : Nat) : CreateResult :=
  let n := allocNumber s
  if s.letters.any (fun l => !l.is_cancelled && l.number == n) then
    .valueError
  else if s.letters.any (fun l => l.number == n) then
    .integrityError
  else
    .ok ⟨s.letters ++ [newLetter s su ad un t n], s.nextId + 1⟩ n

/-- The state after `letter.is_cancelled = True; letter.save()` on the row
with primary key `pk`. -/
def cancelUpdate (s : Store) (pk : Nat) : Store :=
  ⟨s.letters.map (fun l => if l.id == pk then { l with is_cancelled := true } else l),
   s.nextId⟩

/-- `LetterCancelAPIView.post`: 404 (`none`) when no letter has primary key
`pk`, otherwise mark it cancelled. -/
def cancel (s : Store) (pk : Nat) : Option Store :=
  if s.letters.any (fun l => l.id == pk) then
    some (cancelUpdate s pk)
  else
    none

/-- Outcome of `LetterRestoreAPIView.post`. -/
inductive RestoreResult where
  | ok (s : Store)
  | conflict
  | notFound
deriving DecidableEq

/-- The state after `letter_to_restore.is_cancelled = False; save()`. -/
def restoreUpdate (s : Store) (pk : Nat) : Store :=
  ⟨s.letters.map (fun l => if l.id == pk then { l with is_cancelled := false } else l),
   s.nextId⟩

/-- `LetterRestoreAPIView.post`: fetch the cancelled letter with primary key
`pk` (404 when absent), answer 409 when an active letter holds its number,
otherwise clear `is_cancelled`. -/
def restore (s : Store) (pk : Nat) : RestoreResult :=
  match s.letters.find? (fun l => l.id == pk && l.is_cancelled) with
  | none => .notFound
  | some l =>
    if s.letters.any (fun m => m.number == l.number && !m.is_cancelled) then
      .conflict
    else
      .ok (restoreUpdate s pk)

/-- The ordering used by the list endpoint: `Meta.ordering = ['-number']`,
i.e. `number` descending. -/
def numberDesc (a b : Letter) : Prop := b.number ≤ a.number

instance : DecidableRel numberDesc := fun a b => Nat.decLe b.number a.number

instance : IsTotal Letter numberDesc := ⟨fun a b => Nat.le_total b.number a.number⟩

instance : IsTrans Letter numberDesc :=
  ⟨fun _ _ _ h h' => Nat.le_trans h' h⟩

/-- `GET /letters/` (`LetterListCreateAPIView` with
`queryset = Letter.objects.all()`): all rows, ordered by `number`
descending. -/
def listLetters (s : Store) : List Letter :=
  List.insertionSort numberDesc s.letters

/-- One API call against the letter endpoints. -/
inductive Op where
  | create (su ad un : String) (t : Nat)
  | cancel (pk : Nat)
  | restore (pk : Nat)

/-- Execute one call; a failing call (404, 409, `ValueError`,
`IntegrityError`) leaves the database unchanged (for create this is the
rollback of `transaction.atomic`). -/
def step (s : Store) : Op → Store
  | .create su ad un t =>
    match create s su ad un t with
    | .ok s' _ => s'
    | _ => s
  | .cancel pk => (cancel s pk).getD s
  | .restore pk =>
    match restore s pk with
    | .ok s' => s'
    | _ => s

/-- The state reached from the empty database by a sequence of calls. -/
def run (ops : List Op) : Store := ops.foldl step emptyStore

/-- Run a sequence of create calls from `s`, collecting the numbers assigned
by the successful ones in order. -/
def runCreates (s : Store) : List (String × String × String × Nat) → Store × List Nat
  | [] => (s, [])
  | (su, ad, un, t) :: rest =>
    match create s su ad un t with
    | .ok s' n =>
      let r := runCreates s' rest
      (r.1, n :: r.2)
    | _ => runCreates s rest

/-- The ordering the specification claims for the list endpoint: `number`
descending, then active letters before cancelled ones among equal numbers,
then `registered_at` descending. -/
def specListOrder (a b : Letter) : Prop :=
  b.number < a.number ∨
    (a.number = b.number ∧
      ((a.is_cancelled = false ∧ b.is_cancelled = true) ∨
        (a.is_cancelled = b.is_cancelled ∧ b.registered_at ≤ a.registered_at)))

/-- Database invariants maintained by the endpoints: the numbers of all rows
are pairwise distinct (`unique=True` on `number`), the primary keys are
pairwise distinct and below the auto-increment counter. -/
def StoreInv (s : Store) : Prop :=
  (allNumbers s).Nodup ∧ (s.letters.map Letter.id).Nodup ∧
    ∀ l ∈ s.letters, l.id < s.nextId

/-- `s'` differs from `s` at most in the `is_cancelled` flag of the letter
with primary key `pk`: same counter, same rows in the same positions with
every field but `is_cancelled` unchanged, and rows with a different primary
key fully unchanged. -/
def FrameOnlyCancelFlag (s s' : Store) (pk : Nat) : Prop :=
  s'.nextId = s.nextId ∧
  s'.letters.length = s.letters.length ∧
  ∀ i : Nat, ∀ h : i < s.letters.length, ∀ h' : i < s'.letters.length,
    (s'.letters.get ⟨i, h'⟩).id = (s.letters.get ⟨i, h⟩).id ∧
    (s'.letters.get ⟨i, h'⟩).number = (s.letters.get ⟨i, h⟩).number ∧
    (s'.letters.get ⟨i, h'⟩).subject = (s.letters.get ⟨i, h⟩).subject ∧
    (s'.letters.get ⟨i, h'⟩).addressee = (s.letters.get ⟨i, h⟩).addressee ∧
    (s'.letters.get ⟨i, h'⟩).registered_by_username
      = (s.letters.get ⟨i, h⟩).registered_by_username ∧
    (s'.letters.get ⟨i, h'⟩).registered_at = (s.letters.get ⟨i, h⟩).registered_at ∧
    ((s.letters.get ⟨i, h⟩).id ≠ pk → s'.letters.get ⟨i, h'⟩ = s.letters.get ⟨i, h⟩)

/-! ### User accounts (signup and password reset) -/

/-- A row of Django's `auth_user` table as far as signup and password reset
use it. -/
structure AppUser where
  username : List Char
  email : List Char
deriving DecidableEq

/-- Python `str.strip()` as applied by DRF's `CharField`
(`trim_whitespace=True`, the default, so `serializers.EmailField` trims the
submitted value before validating it).  Whitespace is modelled as the ASCII
whitespace characters. -/
def pyStrip (s : List Char) : List Char :=
  ((s.dropWhile Char.isWhitespace).reverse.dropWhile Char.isWhitespace).reverse

/-- The character class of the dot-atom branch of Django's
`EmailValidator.user_regex`: `[-!#$%&'*+/=?^_\x60\x7b\x7d|~0-9A-Z]` with
`re.IGNORECASE` (apostrophe, backtick, braces and pipe written here by
code point). -/
def atextOk (c : Char) : Bool :=
  c.isAlpha || c.isDigit ||
  "-!#$%&*+/=?^_~".toList.contains c ||
  c.toNat == 39 || c.toNat == 96 || c.toNat == 123 || c.toNat == 124 || c.toNat == 125

/-- The dot-atom branch `^atext+(\.atext+)*\Z` of `user_regex`: dot-separated
non-empty runs of `atext` characters (so no leading, trailing or consecutive
dots). -/
def dotAtomOk (u : List Char) : Bool :=
  (u.splitOn '.').all (fun p => !p.isEmpty && p.all atextOk) && !u.isEmpty

/-- Code points admitted as plain characters inside the quoted-string branch
of `user_regex`: `\001`-`\010`, `\013`, `\014`, `\016`-`\037`, `!`,
`#`-`[`, `]`-`\177`. -/
def qtextOk (n : Nat) : Bool :=
  (1 ≤ n && n ≤ 8) || n == 11 || n == 12 || (14 ≤ n && n ≤ 31) ||
  n == 33 || (35 ≤ n && n ≤ 91) || (93 ≤ n && n ≤ 127)

/-- Code points admitted after a backslash escape inside the quoted-string
branch: `\001`-`\011`, `\013`, `\014`, `\016`-`\177`. -/
def qpairOk (n : Nat) : Bool :=
  (1 ≤ n && n ≤ 9) || n == 11 || n == 12 || (14 ≤ n && n ≤ 127)

/-- The body of the quoted-string branch: a sequence of `qtext` characters
and backslash escapes (92 is the backslash). -/
def quotedContentOk : List Char → Bool
  | [] => true
  | c :: rest =>
    if c.toNat == 92 then
      match rest with
      | [] => false
      | d :: rest2 => qpairOk d.toNat && quotedContentOk rest2
    else
      qtextOk c.toNat && quotedContentOk rest

/-- The quoted-string branch of `user_regex`: a double quote (code 34), a
valid body, a closing double quote. -/
def quotedStringOk (u : List Char) : Bool :=
  match u with
  | [] => false
  | c :: rest =>
    c.toNat == 34 &&
    (match rest.getLast? with
     | none => false
     | some d => d.toNat == 34 && quotedContentOk rest.dropLast)

/-- Django's `EmailValidator.user_regex`: dot-atom or quoted string. -/
def userPartOk (u : List Char) : Bool :=
  dotAtomOk u || quotedStringOk u

/-- ASCII letters and digits (`[A-Z0-9]` with `re.IGNORECASE`). -/
def alnumOk (c : Char) : Bool := c.isAlpha || c.isDigit

/-- A non-final label of `EmailValidator.domain_regex`:
`[A-Z0-9](?:[A-Z0-9-]{0,61}[A-Z0-9])?` — 1 to 63 characters, first and last
alphanumeric, hyphens (code 45) allowed in between. -/
def labelOk (p : List Char) : Bool :=
  match p with
  | [] => false
  | c :: rest =>
    alnumOk c && p.length ≤ 63 &&
    (match rest.getLast? with
     | none => true
     | some d => alnumOk d && rest.dropLast.all (fun x => alnumOk x || x.toNat == 45))

/-- The final label of `domain_regex`: `[A-Z0-9-]{2,63}` not ending in a
hyphen. -/
def lastLabelOk (p : List Char) : Bool :=
  2 ≤ p.length && p.length ≤ 63 && p.all (fun c => alnumOk c || c.toNat == 45) &&
  (match p.getLast? with
   | none => false
   | some d => !(d.toNat == 45))

/-- The domain part accepted by `EmailValidator`: the `localhost` allowlist
entry, or `domain_regex` — one or more dot-terminated labels followed by a
final label.  The IP-literal and IDN/punycode fallbacks are not modelled:
they accept only domains different from `mosaic-insurance.com`, which the
subsequent `validate_email` regex rejects, so `signup`'s outcome is
unaffected. -/
def domainOk (d : List Char) : Bool :=
  d == "localhost".toList ||
  (let parts := d.splitOn '.'
   2 ≤ parts.length && parts.dropLast.all labelOk &&
     (match parts.getLast? with
      | none => false
      | some q => lastLabelOk q))

/-- Python `value.rsplit("@", 1)`: the parts before and after the last `@`
(code 64), assuming one is present. -/
def splitLastAt (email : List Char) : List Char × List Char :=
  let rev := email.reverse
  let domRev := rev.takeWhile (fun c => !(c == '@'))
  ((rev.drop (domRev.length + 1)).reverse, domRev.reverse)

/-- Django's `EmailValidator` as attached by `serializers.EmailField`
(`api/serializers.py` line 34), the first validation stage of signup: the
value is non-empty, contains `@`, is at most 320 characters, its part before
the last `@` matches `user_regex` and its part after matches the domain
check. -/
def emailFieldOk (email : List Char) : Bool :=
  email.contains '@' && decide (email.length ≤ 320) &&
  userPartOk (splitLastAt email).1 && domainOk (splitLastAt email).2

/-- The character class `[a-zA-Z0-9\.\+_-]` of the signup regex
(`SignUpSerializer.validate_email`). -/
def localCharOk (c : Char) : Bool :=
  c.isAlpha || c.isDigit || c == '.' || c == '+' || c == '_' || c == '-'

/-- The fixed domain tail required by the signup regex. -/
def domainTail : List Char := "@mosaic-insurance.com".data

/-- `re.match(r"^[a-zA-Z0-9\.\+_-]+@mosaic-insurance\.com$", email)`, the
custom regex of `SignUpSerializer.validate_email` (the second validation
stage, after `emailFieldOk`): a non-empty local part over the allowed
characters followed by the fixed domain (the class excludes `@`, so no
other decomposition exists). -/
def emailFormatOk (email : List Char) : Bool :=
  decide (21 < email.length) &&
  (email.drop (email.length - 21) == domainTail) &&
  (email.take (email.length - 21)).all localCharOk

/-- `email.split('@')[0]`: the part of the email before the first `@`. -/
def deriveUsername (email : List Char) : List Char :=
  email.takeWhile (fun c => c != '@')

/-- Outcome of `POST /signup/`. -/
inductive SignupResult where
  | created (users : List AppUser)
  | validationError
deriving DecidableEq

/-- `SignUpAPIView.post` with `SignUpSerializer`: DRF's `EmailField` first
trims the submitted value and applies Django's `EmailValidator`
(`emailFieldOk`); then `validate_email` applies the custom regex
(`emailFormatOk`) and rejects an already-used email or derived username; any
failure is a validation error, and on success `User.objects.create_user`
appends exactly one user. -/
def signup (users : List AppUser) (raw : List Char) : SignupResult :=
  if emailFieldOk (pyStrip raw) && emailFormatOk (pyStrip raw)
      && !(users.any (fun u => u.email == pyStrip raw))
      && !(users.any (fun u => u.username == deriveUsername (pyStrip raw))) then
    .created (users ++ [⟨deriveUsername (pyStrip raw), pyStrip raw⟩])
  else
    .validationError

/-- Outcome of `POST /password-reset/`. -/
inductive ResetResult where
  | sent
  | notFound
  | serverError
deriving DecidableEq

/-- `PasswordResetRequestAPIView.post`: `User.objects.get(email=email)` —
404 when no user matches, send the reset mail when exactly one does; with
several matching users `get` raises `MultipleObjectsReturned` (an unhandled
500). -/
def passwordResetRequest (users : List AppUser) (email : List Char) : ResetResult :=
  match users.filter (fun u => u.email == email) with
  | [] => .notFound
  | [_] => .sent
  | _ => .serverError

/-! ### Concrete example states used by witnesses -/

/-- Example store: a single active letter holding number 301. -/
def exActive : Store := ⟨[⟨1, 301, "s", "a", "u", 0, false⟩], 2⟩

/-- Example store: a single cancelled letter holding number 301. -/
def exCancelled : Store := ⟨[⟨1, 301, "s", "a", "u", 0, true⟩], 2⟩

/-- Example store: two active letters with numbers 301 and 302. -/
def exTwo : Store :=
  ⟨[⟨1, 301, "s", "a", "u", 0, false⟩, ⟨2, 302, "t", "b", "u", 1, false⟩], 3⟩

/-- Example email accepted by the signup regex. -/
def aliceEmail : List Char := "alice@mosaic-insurance.com".data

/-- Example user table: one user derived from `alice@mosaic-insurance.com`. -/
def exUsers : List AppUser :=
  [⟨"alice".data, aliceEmail⟩]

/-! ### Helper lemmas about the allocation algorithm -/

theorem mem_freeCancelled_not_active {s : Store} {n : Nat}
    (h : n ∈ freeCancelledNumbers s) : n ∉ activeNumbers s := by
  simp only [freeCancelledNumbers, List.mem_map, List.mem_filter,
    Bool.and_eq_true, Bool.not_eq_true', List.contains, List.elem_eq_mem,
    decide_eq_false_iff_not] at h
  obtain ⟨l, ⟨_, _, hnot⟩, rfl⟩ := h
  exact hnot

theorem activeNumbers_subset (s : Store) : ∀ n ∈ activeNumbers s, n ∈ allNumbers s := by
  intro n hn
  simp only [activeNumbers, activeLetters, List.mem_map, List.mem_filter] at hn
  obtain ⟨l, ⟨hl, _⟩, rfl⟩ := hn
  exact List.mem_map_of_mem Letter.number hl

theorem allNumbers_subset_active_of_no_free {s : Store}
    (h : freeCancelledNumbers s = []) : ∀ n ∈ allNumbers s, n ∈ activeNumbers s := by
  intro n hn
  simp only [allNumbers, List.mem_map] at hn
  obtain ⟨l, hl, rfl⟩ := hn
  by_cases hc : l.is_cancelled
  · by_contra hact
    have : l.number ∈ freeCancelledNumbers s := by
      simp only [freeCancelledNumbers, List.mem_map, List.mem_filter]
      refine ⟨l, ⟨hl, ?_⟩, rfl⟩
      simp [hc, List.contains, List.elem_eq_mem, hact]
    rw [h] at this
    exact (List.not_mem_nil _) this
  · simp only [activeNumbers, activeLetters, List.mem_map, List.mem_filter]
    exact ⟨l, ⟨hl, by simp [hc]⟩, rfl⟩

theorem allNumbers_eq_nil_iff {s : Store} : allNumbers s = [] ↔ s.letters = [] := by
  simp [allNumbers]

/-- When no free cancelled number exists, the maximum over all numbers agrees
with the maximum over active numbers. -/
theorem max_all_eq_max_active_of_no_free {s : Store}
    (h : freeCancelledNumbers s = []) :
    (allNumbers s).max? = (activeNumbers s).max? := by
  cases hall : (allNumbers s).max? with
  | none =>
    rw [List.max?_eq_none_iff] at hall
    have : activeNumbers s = [] := by
      cases hact : activeNumbers s with
      | nil => rfl
      | cons a t =>
        have : a ∈ allNumbers s := activeNumbers_subset s a (by rw [hact]; exact List.mem_cons_self a t)
        rw [hall] at this
        exact absurd this (List.not_mem_nil a)
    rw [this]
    rfl
  | some M =>
    rw [List.max?_eq_some_iff'] at hall
    obtain ⟨hM, hub⟩ := hall
    symm
    rw [List.max?_eq_some_iff']
    exact ⟨allNumbers_subset_active_of_no_free h M hM,
      fun b hb => hub b (activeNumbers_subset s b hb)⟩

/-- C1, case analysis packaged over `allocNumber`. -/
theorem allocNumber_eq_of_free {s : Store} {n : Nat}
    (h : (freeCancelledNumbers s).min? = some n) : allocNumber s = n := by
  simp [allocNumber, h]

/-! ### Claim theorems -/

/-- **C1.** Create's allocation algorithm: among cancelled letters whose
number is held by no active letter, the smallest such number is reused when
one exists; otherwise the assigned number is the maximum number across all
letters (active or cancelled) plus one; and when no letters exist at all the
assigned number is 301.  Holds for every store state. -/
theorem create_allocation_algorithm (s : Store) :
    (freeCancelledNumbers s ≠ [] →
      allocNumber s ∈ freeCancelledNumbers s ∧
        ∀ m ∈ freeCancelledNumbers s, allocNumber s ≤ m) ∧
    (freeCancelledNumbers s = [] → s.letters ≠ [] →
      ∃ M, (allNumbers s).max? = some M ∧ allocNumber s = M + 1) ∧
    (s.letters = [] → allocNumber s = 301) := by
  refine ⟨?_, ?_, ?_⟩
  · intro hne
    cases hmin : (freeCancelledNumbers s).min? with
    | none => exact absurd (List.min?_eq_none_iff.mp hmin) hne
    | some n =>
      have := List.min?_eq_some_iff'.mp hmin
      rw [allocNumber_eq_of_free hmin]
      exact this
  · intro hfree hne
    have hmax := max_all_eq_max_active_of_no_free hfree
    cases hall : (allNumbers s).max? with
    | none =>
      rw [List.max?_eq_none_iff, allNumbers_eq_nil_iff] at hall
      exact absurd hall hne
    | some M =>
      refine ⟨M, rfl, ?_⟩
      simp only [allocNumber, hfree, List.min?_nil]
      rw [← hmax, hall]
  · intro hnil
    have h1 : freeCancelledNumbers s = [] := by
      simp [freeCancelledNumbers, hnil]
    have h2 : activeNumbers s = [] := by
      simp [activeNumbers, activeLetters, hnil]
    simp [allocNumber, h1, h2]

/-- Witness for C1: with a single cancelled letter numbered 301 the
allocation reuses 301; on the empty store it assigns 301. -/
theorem create_allocation_algorithm_witness :
    allocNumber exCancelled ∈ freeCancelledNumbers exCancelled ∧
      allocNumber emptyStore = 301 :=
  ⟨((create_allocation_algorithm exCancelled).1 (by decide)).1,
    (create_allocation_algorithm emptyStore).2.2 rfl⟩

/-- **C2** (what the code actually does): after cancelling the only letter
(number 301), the next create picks 301 for reuse, but the insert violates
the `unique=True` constraint on `Letter.number` and fails with an integrity
error instead of persisting a letter with the reused number. -/
theorem cancelled_number_reuse_rejected :
    create emptyStore "s" "a" "u" 0 = .ok exActive 301 ∧
    cancel exActive 1 = some exCancelled ∧
    allocNumber exCancelled = 301 ∧
    create exCancelled "t" "b" "u" 1 = .integrityError := by
  refine ⟨?_, ?_, ?_, ?_⟩ <;> decide

/-! ### Invariant machinery -/

theorem allocNumber_not_active (s : Store) : allocNumber s ∉ activeNumbers s := by
  cases hmin : (freeCancelledNumbers s).min? with
  | some n =>
    have hmem := (List.min?_eq_some_iff'.mp hmin).1
    have hna := mem_freeCancelled_not_active hmem
    simpa [allocNumber, hmin] using hna
  | none =>
    cases hmax : (activeNumbers s).max? with
    | some m =>
      have halloc : allocNumber s = m + 1 := by simp [allocNumber, hmin, hmax]
      rw [halloc]
      intro hmem
      have := (List.max?_eq_some_iff'.mp hmax).2 _ hmem
      omega
    | none =>
      have h := List.max?_eq_none_iff.mp hmax
      rw [allocNumber, hmin, hmax, h]
      exact List.not_mem_nil _

theorem create_eq_ok {s : Store} {su ad un : String} {t : Nat} {s' : Store} {n : Nat}
    (h : create s su ad un t = .ok s' n) :
    n = allocNumber s ∧ (∀ l ∈ s.letters, l.number ≠ n) ∧
      s' = ⟨s.letters ++ [newLetter s su ad un t n], s.nextId + 1⟩ := by
  unfold create at h
  by_cases h1 : s.letters.any (fun l => !l.is_cancelled && l.number == allocNumber s)
  · simp [h1] at h
  · by_cases h2 : s.letters.any (fun l => l.number == allocNumber s)
    · simp [h1, h2] at h
    · simp only [h1, h2, if_false, CreateResult.ok.injEq, Bool.not_eq_true] at h
      obtain ⟨rfl, rfl⟩ := h
      refine ⟨rfl, ?_, rfl⟩
      intro l hl
      intro hn
      exact h2 (List.any_eq_true.mpr ⟨l, hl, by simp [hn]⟩)

theorem create_ok_of_fresh {s : Store} (su ad un : String) (t : Nat)
    (h : ∀ l ∈ s.letters, l.number ≠ allocNumber s) :
    create s su ad un t =
      .ok ⟨s.letters ++ [newLetter s su ad un t (allocNumber s)], s.nextId + 1⟩
        (allocNumber s) := by
  unfold create
  have h2 : s.letters.any (fun l => l.number == allocNumber s) = false := by
    rw [List.any_eq_false]
    intro l hl
    simp [h l hl]
  have h1 : s.letters.any (fun l => !l.is_cancelled && l.number == allocNumber s) = false := by
    rw [List.any_eq_false]
    intro l hl
    simp [h l hl]
  simp [h1, h2]

theorem allNumbers_cancelUpdate (s : Store) (pk : Nat) :
    allNumbers (cancelUpdate s pk) = allNumbers s := by
  simp only [allNumbers, cancelUpdate, List.map_map]
  refine List.map_congr_left (fun l _ => ?_)
  by_cases h : l.id = pk <;> simp [h]

theorem ids_cancelUpdate (s : Store) (pk : Nat) :
    (cancelUpdate s pk).letters.map Letter.id = s.letters.map Letter.id := by
  simp only [cancelUpdate, List.map_map]
  refine List.map_congr_left (fun l _ => ?_)
  by_cases h : l.id = pk <;> simp [h]

theorem allNumbers_restoreUpdate (s : Store) (pk : Nat) :
    allNumbers (restoreUpdate s pk) = allNumbers s := by
  simp only [allNumbers, restoreUpdate, List.map_map]
  refine List.map_congr_left (fun l _ => ?_)
  by_cases h : l.id = pk <;> simp [h]

theorem ids_restoreUpdate (s : Store) (pk : Nat) :
    (restoreUpdate s pk).letters.map Letter.id = s.letters.map Letter.id := by
  simp only [restoreUpdate, List.map_map]
  refine List.map_congr_left (fun l _ => ?_)
  by_cases h : l.id = pk <;> simp [h]

theorem storeInv_empty : StoreInv emptyStore :=
  ⟨by simp [allNumbers, emptyStore], by simp [emptyStore], by simp [emptyStore]⟩

theorem storeInv_cancelUpdate {s : Store} (h : StoreInv s) (pk : Nat) :
    StoreInv (cancelUpdate s pk) := by
  refine ⟨?_, ?_, ?_⟩
  · rw [allNumbers_cancelUpdate]; exact h.1
  · rw [ids_cancelUpdate]; exact h.2.1
  · intro l hl
    simp only [cancelUpdate, List.mem_map] at hl
    obtain ⟨m, hm, rfl⟩ := hl
    have := h.2.2 m hm
    show (if m.id == pk then { m with is_cancelled := true } else m).id < s.nextId
    split <;> simpa

theorem storeInv_restoreUpdate {s : Store} (h : StoreInv s) (pk : Nat) :
    StoreInv (restoreUpdate s pk) := by
  refine ⟨?_, ?_, ?_⟩
  · rw [allNumbers_restoreUpdate]; exact h.1
  · rw [ids_restoreUpdate]; exact h.2.1
  · intro l hl
    simp only [restoreUpdate, List.mem_map] at hl
    obtain ⟨m, hm, rfl⟩ := hl
    have := h.2.2 m hm
    show (if m.id == pk then { m with is_cancelled := false } else m).id < s.nextId
    split <;> simpa

theorem storeInv_create {s : Store} (h : StoreInv s) {su ad un : String} {t : Nat}
    {s' : Store} {n : Nat} (hc : create s su ad un t = .ok s' n) : StoreInv s' := by
  obtain ⟨rfl, hfresh, rfl⟩ := create_eq_ok hc
  refine ⟨?_, ?_, ?_⟩
  · show (List.map Letter.number (s.letters ++ [newLetter s su ad un t (allocNumber s)])).Nodup
    rw [List.map_append]
    rw [List.nodup_append]
    refine ⟨h.1, List.nodup_singleton _, ?_⟩
    intro x hx
    simp only [newLetter, List.map_cons, List.map_nil, List.mem_singleton]
    intro hx2
    simp only [allNumbers, List.mem_map] at hx
    obtain ⟨l, hl, rfl⟩ := hx
    exact hfresh l hl hx2
  · show (List.map Letter.id (s.letters ++ [newLetter s su ad un t (allocNumber s)])).Nodup
    rw [List.map_append, List.nodup_append]
    refine ⟨h.2.1, List.nodup_singleton _, ?_⟩
    intro x hx
    simp only [newLetter, List.map_cons, List.map_nil, List.mem_singleton]
    intro hx2
    simp only [List.mem_map] at hx
    obtain ⟨l, hl, rfl⟩ := hx
    have := h.2.2 l hl
    omega
  · intro l hl
    simp only [List.mem_append, List.mem_singleton] at hl
    rcases hl with hl | rfl
    · have := h.2.2 l hl
      show l.id < s.nextId + 1
      omega
    · show (newLetter s su ad un t (allocNumber s)).id < s.nextId + 1
      simp [newLetter]

theorem storeInv_step {s : Store} (h : StoreInv s) (op : Op) : StoreInv (step s op) := by
  cases op with
  | create su ad un t =>
    show StoreInv (match create s su ad un t with | .ok s' _ => s' | _ => s)
    cases hc : create s su ad un t with
    | ok s' n => exact storeInv_create h hc
    | valueError => exact h
    | integrityError => exact h
  | cancel pk =>
    show StoreInv ((cancel s pk).getD s)
    unfold cancel
    split
    · exact storeInv_cancelUpdate h pk
    · exact h
  | restore pk =>
    show StoreInv (match restore s pk with | .ok s' => s' | _ => s)
    unfold restore
    cases hf : s.letters.find? (fun l => l.id == pk && l.is_cancelled) with
    | none => exact h
    | some l =>
      by_cases hr : s.letters.any (fun m => m.number == l.number && !m.is_cancelled)
      · simp only [hr, if_true]
        exact h
      · simp only [hr]
        simp only [Bool.false_eq_true, if_false]
        exact storeInv_restoreUpdate h pk

theorem storeInv_run (ops : List Op) : StoreInv (run ops) := by
  suffices h : ∀ s, StoreInv s → StoreInv (ops.foldl step s) from
    h emptyStore storeInv_empty
  induction ops with
  | nil => exact fun s hs => hs
  | cons op rest ih => exact fun s hs => ih _ (storeInv_step hs op)

theorem activeNumbers_sublist (s : Store) :
    (activeNumbers s).Sublist (allNumbers s) :=
  (List.filter_sublist s.letters).map Letter.number

theorem activeNumbers_nodup_of_inv {s : Store} (h : StoreInv s) :
    (activeNumbers s).Nodup :=
  List.Nodup.sublist (activeNumbers_sublist s) h.1

/-- **C3.** In every state reachable from the empty store by a sequence of
Create, Cancel and Restore calls, no two active letters share a number; the
number `perform_create` allocates is never held by an active letter; and
every single call preserves the invariant. -/
theorem active_number_uniqueness_invariant :
    (∀ ops : List Op, (activeNumbers (run ops)).Pairwise (· ≠ ·)) ∧
    (∀ s : Store, (activeNumbers s).contains (allocNumber s) = false) ∧
    (∀ ops : List Op, ∀ op : Op,
      (activeNumbers (step (run ops) op)).Pairwise (· ≠ ·)) :=
  ⟨fun ops => activeNumbers_nodup_of_inv (storeInv_run ops),
   fun s => by
     simp only [List.contains, List.elem_eq_mem, decide_eq_false_iff_not]
     exact allocNumber_not_active s,
   fun ops op => activeNumbers_nodup_of_inv (storeInv_step (storeInv_run ops) op)⟩

/-! ### Cancel and restore semantics -/

theorem restore_ok_eq {s : Store} {pk : Nat} {s' : Store}
    (h : restore s pk = .ok s') : s' = restoreUpdate s pk := by
  unfold restore at h
  split at h
  · exact absurd h (by simp)
  · split at h
    · exact absurd h (by simp)
    · exact (RestoreResult.ok.inj h).symm

theorem cancel_some_eq {s : Store} {pk : Nat} {s' : Store}
    (h : cancel s pk = some s') : s' = cancelUpdate s pk := by
  unfold cancel at h
  by_cases ha : s.letters.any (fun l => l.id == pk)
  · rw [if_pos ha] at h
    exact (Option.some.inj h).symm
  · rw [if_neg ha] at h
    exact absurd h (by simp)

theorem cancelUpdate_idem (s : Store) (pk : Nat) :
    cancelUpdate (cancelUpdate s pk) pk = cancelUpdate s pk := by
  simp only [cancelUpdate, List.map_map]
  refine congrArg (fun ls => Store.mk ls s.nextId) ?_
  refine List.map_congr_left (fun l _ => ?_)
  by_cases h : l.id = pk <;> simp [Function.comp, h]

/-- **C5.** Cancel: 404 exactly when no letter has the id; otherwise it
marks the letter cancelled; and it is idempotent — cancelling again succeeds
with the letter still cancelled and the state unchanged. -/
theorem cancel_semantics (s : Store) (pk : Nat) :
    (cancel s pk = none ↔ ∀ l ∈ s.letters, l.id ≠ pk) ∧
    ((∃ l ∈ s.letters, l.id = pk) → cancel s pk = some (cancelUpdate s pk)) ∧
    (∀ s', cancel s pk = some s' →
      (∀ l ∈ s'.letters, l.id = pk → l.is_cancelled = true) ∧
      cancel s' pk = some s') := by
  refine ⟨?_, ?_, ?_⟩
  · unfold cancel
    by_cases ha : s.letters.any (fun l => l.id == pk)
    · rw [if_pos ha]
      simp only [List.any_eq_true, beq_iff_eq] at ha
      obtain ⟨l, hl, hid⟩ := ha
      simp only [reduceCtorEq, false_iff, not_forall]
      exact ⟨l, hl, by simp [hid]⟩
    · rw [if_neg ha]
      simp only [List.any_eq_true, beq_iff_eq] at ha
      push_neg at ha
      simpa using ha
  · intro ⟨l, hl, hid⟩
    unfold cancel
    rw [if_pos (List.any_eq_true.mpr ⟨l, hl, by simp [hid]⟩)]
  · intro s' hs'
    obtain rfl := cancel_some_eq hs'
    constructor
    · intro l hl hid
      simp only [cancelUpdate, List.mem_map] at hl
      obtain ⟨m, _, rfl⟩ := hl
      by_cases hm : m.id = pk
      · simp [hm]
      · rw [if_neg (by simpa using hm)] at hid
        exact absurd hid hm
    · have hmem : (cancelUpdate s pk).letters.any (fun l => l.id == pk) = true := by
        unfold cancel at hs'
        by_cases ha : s.letters.any (fun l => l.id == pk)
        · rw [List.any_eq_true] at ha ⊢
          obtain ⟨l, hl, hid⟩ := ha
          refine ⟨if l.id == pk then { l with is_cancelled := true } else l,
            List.mem_map_of_mem _ hl, ?_⟩
          simp only [beq_iff_eq] at hid
          simp [hid]
        · rw [if_neg ha] at hs'
          exact absurd hs' (by simp)
      unfold cancel
      rw [if_pos hmem, cancelUpdate_idem]

/-- Witness for C5: cancelling the single active letter succeeds, and
cancelling it a second time returns the same state. -/
theorem cancel_semantics_witness :
    cancel exActive 1 = some (cancelUpdate exActive 1) ∧
    cancel (cancelUpdate exActive 1) 1 = some (cancelUpdate exActive 1) :=
  ⟨(cancel_semantics exActive 1).2.1 ⟨⟨1, 301, "s", "a", "u", 0, false⟩, by decide, rfl⟩,
   ((cancel_semantics exActive 1).2.2 (cancelUpdate exActive 1)
      ((cancel_semantics exActive 1).2.1
        ⟨⟨1, 301, "s", "a", "u", 0, false⟩, by decide, rfl⟩)).2⟩

theorem restore_eq_notFound {s : Store} {pk : Nat}
    (hf : s.letters.find? (fun l => l.id == pk && l.is_cancelled) = none) :
    restore s pk = .notFound := by
  simp only [restore, hf]

theorem restore_eq_conflict {s : Store} {pk : Nat} {l : Letter}
    (hf : s.letters.find? (fun m => m.id == pk && m.is_cancelled) = some l)
    (ha : (s.letters.any fun m => m.number == l.number && !m.is_cancelled) = true) :
    restore s pk = .conflict := by
  simp only [restore, hf, ha, if_true]

theorem restore_eq_success {s : Store} {pk : Nat} {l : Letter}
    (hf : s.letters.find? (fun m => m.id == pk && m.is_cancelled) = some l)
    (ha : (s.letters.any fun m => m.number == l.number && !m.is_cancelled) = false) :
    restore s pk = .ok (restoreUpdate s pk) := by
  simp only [restore, hf, ha, Bool.false_eq_true, if_false]

/-- **C4.** Restore: 404 exactly when no cancelled letter has the id; when a
cancelled letter with the id exists and an active letter holds its number,
409 with the store left unchanged; otherwise it clears the letter's
cancelled flag and succeeds. -/
theorem restore_semantics (s : Store) (pk : Nat)
    (hids : (s.letters.map Letter.id).Nodup) :
    (restore s pk = .notFound ↔ ∀ l ∈ s.letters, l.id = pk → l.is_cancelled = false) ∧
    (∀ l ∈ s.letters, l.id = pk → l.is_cancelled = true →
      ((∃ m ∈ s.letters, m.is_cancelled = false ∧ m.number = l.number) →
          restore s pk = .conflict ∧ step s (.restore pk) = s) ∧
      ((∀ m ∈ s.letters, m.is_cancelled = false → m.number ≠ l.number) →
          restore s pk = .ok (restoreUpdate s pk) ∧
          ∀ m ∈ (restoreUpdate s pk).letters, m.id = pk → m.is_cancelled = false)) := by
  have hfind : ∀ l ∈ s.letters, l.id = pk → l.is_cancelled = true →
      s.letters.find? (fun m => m.id == pk && m.is_cancelled) = some l := by
    intro l hl hid hc
    cases hf : s.letters.find? (fun m => m.id == pk && m.is_cancelled) with
    | none =>
      have := List.find?_eq_none.mp hf l hl
      simp [hid, hc] at this
    | some l' =>
      have hl' := List.mem_of_find?_eq_some hf
      have hp := List.find?_some hf
      simp only [Bool.and_eq_true, beq_iff_eq] at hp
      have heq : l' = l :=
        List.inj_on_of_nodup_map hids hl' hl (by rw [hp.1, hid])
      rw [heq]
  constructor
  · constructor
    · intro h l hl hid
      by_contra hcc
      rw [Bool.not_eq_false] at hcc
      have hf := hfind l hl hid hcc
      by_cases ha : s.letters.any (fun m => m.number == l.number && !m.is_cancelled)
      · rw [restore_eq_conflict hf ha] at h
        exact absurd h (by simp)
      · rw [restore_eq_success hf (by simpa using ha)] at h
        exact absurd h (by simp)
    · intro h
      refine restore_eq_notFound ?_
      cases hf : s.letters.find? (fun m => m.id == pk && m.is_cancelled) with
      | none => rfl
      | some l =>
        have hl := List.mem_of_find?_eq_some hf
        have hp := List.find?_some hf
        simp only [Bool.and_eq_true, beq_iff_eq] at hp
        have := h l hl hp.1
        rw [hp.2] at this
        exact absurd this (by simp)
  · intro l hl hid hc
    have hf := hfind l hl hid hc
    constructor
    · intro ⟨m, hm, hact, hnum⟩
      have ha : (s.letters.any fun m => m.number == l.number && !m.is_cancelled) = true :=
        List.any_eq_true.mpr ⟨m, hm, by simp [hnum, hact]⟩
      have hres := restore_eq_conflict hf ha
      refine ⟨hres, ?_⟩
      show (match restore s pk with | .ok s' => s' | _ => s) = s
      rw [hres]
    · intro hnone
      have ha : (s.letters.any fun m => m.number == l.number && !m.is_cancelled) = false := by
        rw [List.any_eq_false]
        intro m hm
        simp only [Bool.and_eq_true, beq_iff_eq, Bool.not_eq_true', not_and]
        intro hnum hact
        exact absurd hnum (hnone m hm hact)
      refine ⟨restore_eq_success hf ha, ?_⟩
      intro m hm hmid
      simp only [restoreUpdate, List.mem_map] at hm
      obtain ⟨x, _, rfl⟩ := hm
      by_cases hx : x.id = pk
      · simp [hx]
      · rw [if_neg (by simpa using hx)] at hmid
        exact absurd hmid hx

/-- Witness for C4: restoring the single cancelled letter (no active letter
holds 301) succeeds and clears the flag. -/
theorem restore_semantics_witness :
    restore exCancelled 1 = .ok (restoreUpdate exCancelled 1) :=
  (((restore_semantics exCancelled 1 (by decide)).2
      ⟨1, 301, "s", "a", "u", 0, true⟩ (by decide) rfl rfl).2 (by decide)).1

/-! ### Frame properties of cancel and restore -/

theorem frame_cancelUpdate (s : Store) (pk : Nat) :
    FrameOnlyCancelFlag s (cancelUpdate s pk) pk := by
  refine ⟨rfl, by simp [cancelUpdate], ?_⟩
  intro i h h'
  have hget : (cancelUpdate s pk).letters.get ⟨i, h'⟩ =
      (fun l => if l.id == pk then { l with is_cancelled := true } else l)
        (s.letters.get ⟨i, h⟩) := by
    simp [cancelUpdate]
  rw [hget]
  simp only [List.get_eq_getElem]
  by_cases hid : s.letters[i].id = pk <;> simp [hid]

theorem frame_restoreUpdate (s : Store) (pk : Nat) :
    FrameOnlyCancelFlag s (restoreUpdate s pk) pk := by
  refine ⟨rfl, by simp [restoreUpdate], ?_⟩
  intro i h h'
  have hget : (restoreUpdate s pk).letters.get ⟨i, h'⟩ =
      (fun l => if l.id == pk then { l with is_cancelled := false } else l)
        (s.letters.get ⟨i, h⟩) := by
    simp [restoreUpdate]
  rw [hget]
  simp only [List.get_eq_getElem]
  by_cases hid : s.letters[i].id = pk <;> simp [hid]

/-- **C8.** A successful cancel or restore changes at most the
`is_cancelled` flag of the letter with the given id: every other field of
every letter (and every other letter entirely) is unchanged, no letter is
deleted, and the id counter is untouched. -/
theorem cancel_restore_change_only_flag (s : Store) (pk : Nat) :
    (∀ s', cancel s pk = some s' → FrameOnlyCancelFlag s s' pk) ∧
    (∀ s', restore s pk = .ok s' → FrameOnlyCancelFlag s s' pk) :=
  ⟨fun _ hs' => (cancel_some_eq hs') ▸ frame_cancelUpdate s pk,
   fun _ hs' => (restore_ok_eq hs') ▸ frame_restoreUpdate s pk⟩

/-- Witness for C8: cancelling the single active letter yields the cancelled
store and satisfies the frame property. -/
theorem cancel_restore_change_only_flag_witness :
    FrameOnlyCancelFlag exActive exCancelled 1 :=
  (cancel_restore_change_only_flag exActive 1).1 exCancelled (by decide)

/-! ### Create-only runs -/

theorem allocNumber_all_active {s : Store} {k : Nat}
    (hact : ∀ l ∈ s.letters, l.is_cancelled = false)
    (hnum : s.letters.map Letter.number = List.range' 301 k) :
    allocNumber s = 301 + k := by
  have hfree : freeCancelledNumbers s = [] := by
    unfold freeCancelledNumbers
    rw [List.filter_eq_nil_iff.mpr, List.map_nil]
    intro l hl
    simp [hact l hl]
  have hactive : activeNumbers s = List.range' 301 k := by
    unfold activeNumbers activeLetters
    rw [List.filter_eq_self.mpr, hnum]
    intro l hl
    simp [hact l hl]
  cases k with
  | zero =>
    simp [allocNumber, hfree, hactive]
  | succ j =>
    have hmax : (activeNumbers s).max? = some (301 + j) := by
      rw [hactive, List.max?_eq_some_iff']
      constructor
      · rw [List.mem_range'_1]
        omega
      · intro b hb
        rw [List.mem_range'_1] at hb
        omega
    simp [allocNumber, hfree, hmax]
    omega

theorem runCreates_range {inputs : List (String × String × String × Nat)} :
    ∀ {s : Store} {k : Nat},
    (∀ l ∈ s.letters, l.is_cancelled = false) →
    s.letters.map Letter.number = List.range' 301 k →
    (runCreates s inputs).2 = List.range' (301 + k) inputs.length := by
  induction inputs with
  | nil => intro s k _ _; rfl
  | cons inp rest ih =>
    obtain ⟨su, ad, un, t⟩ := inp
    intro s k hact hnum
    have halloc := allocNumber_all_active hact hnum
    have hfresh : ∀ l ∈ s.letters, l.number ≠ allocNumber s := by
      intro l hl
      rw [halloc]
      have : l.number ∈ List.range' 301 k := by
        rw [← hnum]
        exact List.mem_map_of_mem Letter.number hl
      rw [List.mem_range'_1] at this
      omega
    have hc := create_ok_of_fresh su ad un t hfresh
    have hact' : ∀ l ∈ (s.letters ++ [newLetter s su ad un t (allocNumber s)]),
        l.is_cancelled = false := by
      intro l hl
      rcases List.mem_append.mp hl with hl | hl
      · exact hact l hl
      · rw [List.mem_singleton.mp hl]; rfl
    have hnum' : (s.letters ++ [newLetter s su ad un t (allocNumber s)]).map
        Letter.number = List.range' 301 (k + 1) := by
      rw [List.map_append, hnum, halloc]
      have hcat : List.range' 301 (k + 1) = List.range' 301 k ++ [301 + k] :=
        List.range'_1_concat 301 k
      rw [hcat]
      rfl
    have hih := ih (s := ⟨s.letters ++ [newLetter s su ad un t (allocNumber s)],
      s.nextId + 1⟩) (k := k + 1) hact' hnum'
    rw [halloc] at hc hih
    simp only [runCreates, hc]
    rw [hih]
    show (301 + k) :: List.range' (301 + (k + 1)) rest.length
      = List.range' (301 + k) (rest.length + 1)
    rw [List.range'_succ (301 + k) rest.length 1, Nat.add_assoc]

/-- **C6.** In a run consisting only of Create calls from the empty store,
the assigned numbers are strictly increasing, and the first assigned number
is 301. -/
theorem createOnly_numbers_increasing
    (inputs : List (String × String × String × Nat)) :
    (runCreates emptyStore inputs).2.Chain' (· < ·) ∧
    (inputs ≠ [] → (runCreates emptyStore inputs).2.head? = some 301) := by
  have h : (runCreates emptyStore inputs).2 = List.range' 301 inputs.length :=
    runCreates_range (s := emptyStore) (k := 0) (by simp [emptyStore])
      (by simp [emptyStore])
  rw [h]
  constructor
  · exact (List.pairwise_lt_range' 301 inputs.length).chain'
  · intro hne
    cases hl : inputs.length with
    | zero => exact absurd (List.length_eq_zero.mp hl) hne
    | succ j => rw [List.range'_succ 301 j 1]; rfl

/-- Witness for C6: one single create assigns 301. -/
theorem createOnly_numbers_increasing_witness :
    (runCreates emptyStore [("s", "a", "u", 0)]).2.head? = some 301 :=
  (createOnly_numbers_increasing [("s", "a", "u", 0)]).2 (by simp)

/-! ### The list endpoint -/

/-- **C7.** The list endpoint returns all letters (a permutation of the
table: no filtering, no pagination) and, `number` being unique across all
letters (`unique=True`), the result is sorted in the order the spec states:
number descending, then active before cancelled, then `registered_at`
descending. -/
theorem list_returns_all_sorted (s : Store) (hnum : (allNumbers s).Nodup) :
    List.Perm (listLetters s) s.letters ∧
    (listLetters s).Pairwise specListOrder := by
  have hperm : List.Perm (listLetters s) s.letters :=
    List.perm_insertionSort numberDesc s.letters
  refine ⟨hperm, ?_⟩
  have hsorted : (listLetters s).Pairwise numberDesc :=
    List.sorted_insertionSort numberDesc s.letters
  have hnodup : ((listLetters s).map Letter.number).Nodup :=
    (hperm.map Letter.number).nodup_iff.mpr hnum
  have hne : (listLetters s).Pairwise (fun a b => a.number ≠ b.number) :=
    List.pairwise_map.mp hnodup
  refine (hsorted.and hne).imp ?_
  intro a b hab
  exact Or.inl (Nat.lt_of_le_of_ne hab.1 (fun h => hab.2 h.symm))

/-- Witness for C7: on a two-letter store the listing is sorted in the
spec's order. -/
theorem list_returns_all_sorted_witness :
    (listLetters exTwo).Pairwise specListOrder :=
  (list_returns_all_sorted exTwo (by decide)).2

/-! ### Signup and password reset -/

/-- **C9** as the claim states it fails on the code: the email
`a..b@mosaic-insurance.com` matches `localpart@mosaic-insurance.com` (the
`validate_email` regex) and no user exists, yet signup answers with a
validation error, because Django's `EmailValidator` — run first by
`serializers.EmailField` — rejects the local part `a..b` (consecutive dots
are not a dot-atom). -/
theorem signup_format_match_still_rejected :
    emailFormatOk "a..b@mosaic-insurance.com".data = true ∧
    signup [] "a..b@mosaic-insurance.com".data = .validationError :=
  ⟨by decide, by decide⟩

/-- **C9** (amended).  Signup fails with a validation error exactly when the
trimmed email fails Django's `EmailField` validation, or does not match
`localpart@mosaic-insurance.com`, or some user already holds the trimmed
email or the derived username (the part before the `@`); on success exactly
one user with the trimmed email and derived username is appended. -/
theorem signup_semantics_full (users : List AppUser) (raw : List Char) :
    (signup users raw = .validationError ↔
      emailFieldOk (pyStrip raw) = false ∨ emailFormatOk (pyStrip raw) = false ∨
        ∃ u ∈ users, u.email = pyStrip raw ∨
          u.username = deriveUsername (pyStrip raw)) ∧
    (∀ us, signup users raw = .created us →
      us = users ++ [⟨deriveUsername (pyStrip raw), pyStrip raw⟩]) ∧
    (emailFieldOk (pyStrip raw) = true → emailFormatOk (pyStrip raw) = true →
      (∀ u ∈ users, u.email ≠ pyStrip raw ∧
        u.username ≠ deriveUsername (pyStrip raw)) →
      signup users raw = .created
        (users ++ [⟨deriveUsername (pyStrip raw), pyStrip raw⟩])) := by
  by_cases h0 : emailFieldOk (pyStrip raw)
  · by_cases h1 : emailFormatOk (pyStrip raw)
    · by_cases h2 : users.any (fun u => u.email == pyStrip raw)
      · have hval : signup users raw = .validationError := by
          unfold signup
          rw [if_neg (by simp [h2])]
        refine ⟨?_, ?_, ?_⟩
        · rw [hval]
          constructor
          · intro _
            rw [List.any_eq_true] at h2
            obtain ⟨u, hu, he⟩ := h2
            exact Or.inr (Or.inr ⟨u, hu, Or.inl (by simpa using he)⟩)
          · intro _
            rfl
        · intro us hus
          rw [hval] at hus
          exact absurd hus (by simp)
        · intro _ _ hnone
          rw [List.any_eq_true] at h2
          obtain ⟨u, hu, he⟩ := h2
          exact absurd (by simpa using he) (hnone u hu).1
      · by_cases h3 : users.any (fun u => u.username == deriveUsername (pyStrip raw))
        · have hval : signup users raw = .validationError := by
            unfold signup
            rw [if_neg (by simp [h3])]
          refine ⟨?_, ?_, ?_⟩
          · rw [hval]
            constructor
            · intro _
              rw [List.any_eq_true] at h3
              obtain ⟨u, hu, he⟩ := h3
              exact Or.inr (Or.inr ⟨u, hu, Or.inr (by simpa using he)⟩)
            · intro _
              rfl
          · intro us hus
            rw [hval] at hus
            exact absurd hus (by simp)
          · intro _ _ hnone
            rw [List.any_eq_true] at h3
            obtain ⟨u, hu, he⟩ := h3
            exact absurd (by simpa using he) (hnone u hu).2
        · have hcre : signup users raw = .created
              (users ++ [⟨deriveUsername (pyStrip raw), pyStrip raw⟩]) := by
            unfold signup
            rw [if_pos (by simp [h0, h1, h2, h3])]
          refine ⟨?_, ?_, ?_⟩
          · rw [hcre]
            constructor
            · intro h
              exact absurd h (by simp)
            · intro h
              rcases h with h | h | ⟨u, hu, h | h⟩
              · exact absurd h (by simp [h0])
              · exact absurd h (by simp [h1])
              · exact absurd (List.any_eq_true.mpr ⟨u, hu, by simpa using h⟩) h2
              · exact absurd (List.any_eq_true.mpr ⟨u, hu, by simpa using h⟩) h3
          · intro us hus
            rw [hcre] at hus
            exact (SignupResult.created.inj hus).symm
          · intro _ _ _
            exact hcre
    · have hval : signup users raw = .validationError := by
        unfold signup
        rw [if_neg (by simp [h1])]
      refine ⟨?_, ?_, ?_⟩
      · rw [hval]
        constructor
        · intro _
          exact Or.inr (Or.inl (by simpa using h1))
        · intro _
          rfl
      · intro us hus
        rw [hval] at hus
        exact absurd hus (by simp)
      · intro _ hfmt _
        exact absurd hfmt h1
  · have hval : signup users raw = .validationError := by
      unfold signup
      rw [if_neg (by simp [h0])]
    refine ⟨?_, ?_, ?_⟩
    · rw [hval]
      constructor
      · intro _
        exact Or.inl (by simpa using h0)
      · intro _
        rfl
    · intro us hus
      rw [hval] at hus
      exact absurd hus (by simp)
    · intro hfield _ _
      exact absurd hfield h0

/-- Witness for C9: signing up `alice@mosaic-insurance.com` — which passes
both validation stages — on an empty user table creates exactly the derived
user. -/
theorem signup_semantics_full_witness :
    signup [] aliceEmail = .created [⟨deriveUsername aliceEmail, aliceEmail⟩] :=
  (signup_semantics_full [] aliceEmail).2.2 (by decide) (by decide) (by decide)

/-- **C10.** Password-reset request: 404 exactly when no user holds the
submitted email, and success (reset mail sent) exactly when one does — so
the response reveals account existence.  The hypothesis that stored emails
are pairwise distinct reflects what signup enforces; on a duplicate,
`User.objects.get` would raise instead. -/
theorem password_reset_reveals_existence (users : List AppUser) (email : List Char)
    (huniq : (users.map AppUser.email).Nodup) :
    (passwordResetRequest users email = .sent ↔ ∃ u ∈ users, u.email = email) ∧
    (passwordResetRequest users email = .notFound ↔ ∀ u ∈ users, u.email ≠ email) := by
  cases hf : users.filter (fun u => u.email == email) with
  | nil =>
    have hres : passwordResetRequest users email = .notFound := by
      simp only [passwordResetRequest, hf]
    have hnone : ∀ u ∈ users, u.email ≠ email := by
      intro u hu he
      have hmem : u ∈ users.filter (fun u => u.email == email) :=
        List.mem_filter.mpr ⟨hu, by simpa using he⟩
      rw [hf] at hmem
      exact absurd hmem (List.not_mem_nil u)
    refine ⟨?_, ?_⟩
    · rw [hres]
      constructor
      · intro h
        exact absurd h (by simp)
      · intro ⟨u, hu, he⟩
        exact absurd he (hnone u hu)
    · rw [hres]
      exact iff_of_true rfl hnone
  | cons u rest =>
    have hu : u ∈ users.filter (fun v => v.email == email) := by
      rw [hf]
      exact List.mem_cons_self u rest
    have humem := (List.mem_filter.mp hu).1
    have hue : u.email = email := by
      have := (List.mem_filter.mp hu).2
      simpa using this
    cases rest with
    | nil =>
      have hres : passwordResetRequest users email = .sent := by
        simp only [passwordResetRequest, hf]
      refine ⟨?_, ?_⟩
      · rw [hres]
        exact iff_of_true rfl ⟨u, humem, hue⟩
      · rw [hres]
        constructor
        · intro h
          exact absurd h (by simp)
        · intro h
          exact absurd hue (h u humem)
    | cons v rest2 =>
      have hv : v ∈ users.filter (fun w => w.email == email) := by
        rw [hf]
        exact List.mem_cons_of_mem u (List.mem_cons_self v rest2)
      have hve : v.email = email := by
        have := (List.mem_filter.mp hv).2
        simpa using this
      have hnd : ((users.filter (fun w => w.email == email)).map AppUser.email).Nodup :=
        List.Nodup.sublist ((List.filter_sublist users).map AppUser.email) huniq
      rw [hf] at hnd
      simp only [List.map_cons, List.nodup_cons, List.mem_cons] at hnd
      exact absurd (show u.email = v.email by rw [hue, hve])
        (fun h => hnd.1 (Or.inl h))

/-- Witness for C10: with the single stored user, the reset request for the
stored email is answered with success. -/
theorem password_reset_reveals_existence_witness :
    passwordResetRequest exUsers aliceEmail = .sent :=
  (password_reset_reveals_existence exUsers aliceEmail (by decide)).1.mpr
    ⟨⟨"alice".data, aliceEmail⟩, by decide, rfl⟩

end LetterBackend
